import Mathlib

/-!
Verification of the configuration-generation logic of `tasks.py`:
the layer-2 service address-range allocator (`layer2_dev_env`), the BGP
dev-environment template rendering (`bgp_dev_env`), and the argument
validation helpers (`_check_architectures`, `_check_binaries`).

The Python code is shallowly embedded: IP addresses are modelled by their
numeric (ordinal) value as a `Nat`, Python strings by Lean `String`
(a list of unicode code points, matching CPython `str` semantics for the
ASCII data involved), and Python exceptions by an explicit error type
threaded through `Except`.
-/

/-- Failure modes of the Python code.  `exit` models `invoke.exceptions.Exit`
raised with a message (printed before aborting); `sysExit` models a bare
`sys.exit(code)`; `valueError` models an uncaught `ValueError` (including
`ipaddress.AddressValueError`); `indexError` models an uncaught
`IndexError` such as `[][-1]`.  Messages of `ValueError`/`IndexError` are
not claim-relevant and are not carried. -/
inductive Err where
  | exit (msg : String)
  | sysExit (code : Nat)
  | valueError
  | indexError
deriving DecidableEq, Repr

/-- `true` for `exit`: a deliberate, message-carrying abort, as opposed to
an uncaught exception crash. -/
def Err.isExit : Err → Bool
  | .exit _ => true
  | _ => false

/-! ### Python string ordering (lexicographic on code points) -/

/-- Python `<=` on strings: lexicographic comparison of code-point
sequences, a proper prefix comparing smaller. -/
def charsLe : List Char → List Char → Bool
  | [], _ => true
  | _ :: _, [] => false
  | a :: as, b :: bs => if a < b then true else if b < a then false else charsLe as bs

def strLe (a b : String) : Bool := charsLe a.data b.data

theorem charsLe_refl (l : List Char) : charsLe l l = true := by
  induction l with
  | nil => rfl
  | cons a as ih => simp [charsLe, lt_irrefl, ih]

theorem charsLe_total (a b : List Char) : charsLe a b = true ∨ charsLe b a = true := by
  induction a generalizing b with
  | nil => left; rfl
  | cons x xs ih =>
    cases b with
    | nil => right; rfl
    | cons y ys =>
      rcases lt_trichotomy x y with h | h | h
      · left; simp [charsLe, h]
      · subst h
        rcases ih ys with h' | h'
        · left; simp [charsLe, lt_irrefl, h']
        · right; simp [charsLe, lt_irrefl, h']
      · right; simp [charsLe, h]

theorem charsLe_antisymm {a b : List Char} (h₁ : charsLe a b = true)
    (h₂ : charsLe b a = true) : a = b := by
  induction a generalizing b with
  | nil =>
    cases b with
    | nil => rfl
    | cons y ys => simp [charsLe] at h₂
  | cons x xs ih =>
    cases b with
    | nil => simp [charsLe] at h₁
    | cons y ys =>
      rcases lt_trichotomy x y with h | h | h
      · simp [charsLe, h, asymm h] at h₂
      · subst h
        simp only [charsLe, lt_irrefl, if_false] at h₁ h₂
        exact congrArg (x :: ·) (ih h₁ h₂)
      · simp [charsLe, h, asymm h] at h₁

theorem charsLe_trans {a b c : List Char} (h₁ : charsLe a b = true)
    (h₂ : charsLe b c = true) : charsLe a c = true := by
  induction a generalizing b c with
  | nil => rfl
  | cons x xs ih =>
    cases b with
    | nil => simp [charsLe] at h₁
    | cons y ys =>
      cases c with
      | nil => simp [charsLe] at h₂
      | cons z zs =>
        rcases lt_trichotomy x y with hxy | hxy | hxy
        · rcases lt_trichotomy y z with hyz | hyz | hyz
          · simp [charsLe, lt_trans hxy hyz]
          · subst hyz; simp [charsLe, hxy]
          · simp [charsLe, hyz, asymm hyz] at h₂
        · subst hxy
          simp only [charsLe, lt_irrefl, if_false] at h₁
          rcases lt_trichotomy x z with hyz | hyz | hyz
          · simp [charsLe, hyz]
          · subst hyz
            simp only [charsLe, lt_irrefl, if_false] at h₂ ⊢
            exact ih h₁ h₂
          · simp [charsLe, hyz, asymm hyz] at h₂
        · simp [charsLe, hxy, asymm hxy] at h₁

theorem strLe_refl (a : String) : strLe a a = true := charsLe_refl a.data

theorem strLe_total (a b : String) : strLe a b = true ∨ strLe b a = true :=
  charsLe_total a.data b.data

theorem strLe_antisymm {a b : String} (h₁ : strLe a b = true)
    (h₂ : strLe b a = true) : a = b := by
  cases a; cases b
  exact congrArg String.mk (charsLe_antisymm h₁ h₂)

theorem strLe_trans {a b c : String} (h₁ : strLe a b = true)
    (h₂ : strLe b c = true) : strLe a c = true :=
  charsLe_trans h₁ h₂

/-! ### Python `sorted` on a list of strings -/

/-- Insert into a sorted list, keeping ascending order. -/
def insertStr (x : String) : List String → List String
  | [] => [x]
  | y :: ys => if strLe x y then x :: y :: ys else y :: insertStr x ys

/-- Python `sorted(list_of_strings)`: ascending lexicographic order.  (Any
correct sort of strings produces the same list, since the order is total
and antisymmetric, so stability is irrelevant to the result value.) -/
def sortStrings : List String → List String
  | [] => []
  | x :: xs => insertStr x (sortStrings xs)

/-- Ascending (non-strict) chain; with `Nodup` this is strictly ascending. -/
def StrSorted (l : List String) : Prop := List.Chain' (fun a b => strLe a b = true) l

instance : DecidablePred StrSorted := fun l =>
  inferInstanceAs (Decidable (List.Chain' _ l))

theorem mem_insertStr {a x : String} {l : List String} :
    a ∈ insertStr x l ↔ a = x ∨ a ∈ l := by
  induction l with
  | nil => simp [insertStr]
  | cons y ys ih =>
    by_cases h : strLe x y = true
    · simp [insertStr, h]
    · simp [insertStr, h, ih]; tauto

theorem mem_sortStrings {a : String} {l : List String} :
    a ∈ sortStrings l ↔ a ∈ l := by
  induction l with
  | nil => simp [sortStrings]
  | cons x xs ih => simp [sortStrings, mem_insertStr, ih]

instance : IsTrans String (fun a b => strLe a b = true) :=
  ⟨fun _ _ _ => strLe_trans⟩

theorem head?_insertStr (x : String) (l : List String) :
    (insertStr x l).head? = some x ∨ (insertStr x l).head? = l.head? := by
  cases l with
  | nil => left; rfl
  | cons y ys =>
    by_cases h : strLe x y = true
    · left; simp [insertStr, h]
    · right; simp [insertStr, h]

theorem sorted_insertStr {x : String} {l : List String} (h : StrSorted l) :
    StrSorted (insertStr x l) := by
  induction l with
  | nil => simp [insertStr, StrSorted]
  | cons y ys ih =>
    rw [StrSorted, List.chain'_cons'] at h
    by_cases hxy : strLe x y = true
    · rw [insertStr, if_pos hxy, StrSorted, List.chain'_cons']
      refine ⟨?_, ?_⟩
      · intro z hz; simp at hz; subst hz; exact hxy
      · rw [List.chain'_cons']; exact ⟨h.1, h.2⟩
    · have hyx : strLe y x = true := by
        rcases strLe_total x y with h' | h'
        · exact absurd h' hxy
        · exact h'
      rw [insertStr, if_neg hxy, StrSorted, List.chain'_cons']
      refine ⟨?_, ih h.2⟩
      intro z hz
      rcases head?_insertStr x ys with hh | hh
      · rw [hh] at hz; simp at hz; subst hz; exact hyx
      · rw [hh] at hz; exact h.1 z hz

theorem sorted_sortStrings (l : List String) : StrSorted (sortStrings l) := by
  induction l with
  | nil => simp [sortStrings, StrSorted]
  | cons x xs ih => exact sorted_insertStr ih

theorem nodup_insertStr {x : String} {l : List String} (hx : x ∉ l)
    (h : l.Nodup) : (insertStr x l).Nodup := by
  induction l with
  | nil => simp [insertStr]
  | cons y ys ih =>
    rw [List.nodup_cons] at h
    by_cases hxy : strLe x y = true
    · rw [insertStr, if_pos hxy, List.nodup_cons, List.nodup_cons]
      refine ⟨?_, h⟩
      simp only [List.mem_cons, not_or]
      exact ⟨fun he => hx (by simp [he]), fun he => hx (by simp [he])⟩
    · rw [insertStr, if_neg hxy, List.nodup_cons]
      constructor
      · rw [mem_insertStr]
        rintro (he | he)
        · exact hx (by simp [he])
        · exact h.1 he
      · exact ih (fun he => hx (by simp [he])) h.2

theorem nodup_sortStrings {l : List String} (h : l.Nodup) :
    (sortStrings l).Nodup := by
  induction l with
  | nil => simp [sortStrings]
  | cons x xs ih =>
    rw [List.nodup_cons] at h
    exact nodup_insertStr (fun hm => h.1 (mem_sortStrings.mp hm)) (ih h.2)

/-- In a sorted list the head is a lower bound of the tail. -/
theorem sorted_head_le {y : String} {ys : List String}
    (h : StrSorted (y :: ys)) : ∀ x ∈ ys, strLe y x = true := by
  have hp : List.Pairwise (fun a b => strLe a b = true) (y :: ys) := by
    rw [← List.chain'_iff_pairwise]; exact h
  exact fun x hx => (List.pairwise_cons.mp hp).1 x hx

/-- In a sorted list, every element is `≤` the last one. -/
theorem sorted_le_getLast {l : List String} (h : StrSorted l) {m : String}
    (hm : l.getLast? = some m) : ∀ x ∈ l, strLe x m = true := by
  induction l with
  | nil => intro x hx; cases hx
  | cons y ys ih =>
    intro x hx
    cases ys with
    | nil =>
      simp at hx hm
      subst hx; subst hm; exact strLe_refl _
    | cons z zs =>
      rw [List.getLast?_cons_cons] at hm
      have htail : StrSorted (z :: zs) := by
        rw [StrSorted, List.chain'_cons'] at h; exact h.2
      rcases List.mem_cons.mp hx with he | ht
      · subst he
        have hzm : strLe z m = true :=
          ih htail hm z (List.mem_cons_self z zs)
        exact strLe_trans (sorted_head_le h z (List.mem_cons_self z zs)) hzm
      · exact ih htail hm x ht

/-- Two sorted duplicate-free string lists with the same members are equal. -/
theorem sorted_nodup_ext {l₁ l₂ : List String} (hs₁ : StrSorted l₁)
    (hs₂ : StrSorted l₂) (hn₁ : l₁.Nodup) (hn₂ : l₂.Nodup)
    (hm : ∀ a, a ∈ l₁ ↔ a ∈ l₂) : l₁ = l₂ := by
  induction l₁ generalizing l₂ with
  | nil =>
    cases l₂ with
    | nil => rfl
    | cons y ys => exact absurd ((hm y).mpr (List.mem_cons_self y ys)) (by simp)
  | cons x xs ih =>
    cases l₂ with
    | nil => exact absurd ((hm x).mp (List.mem_cons_self x xs)) (by simp)
    | cons y ys =>
      have hhead : x = y := by
        have hxy : x ∈ y :: ys := (hm x).mp (List.mem_cons_self x xs)
        have hyx : y ∈ x :: xs := (hm y).mpr (List.mem_cons_self y ys)
        have le₁ : strLe y x = true := by
          rcases List.mem_cons.mp hxy with he | htail
          · exact he ▸ strLe_refl x
          · exact sorted_head_le hs₂ x htail
        have le₂ : strLe x y = true := by
          rcases List.mem_cons.mp hyx with he | htail
          · exact he ▸ strLe_refl y
          · exact sorted_head_le hs₁ y htail
        exact strLe_antisymm le₂ le₁
      subst hhead
      have hs₁' : StrSorted xs := by
        rw [StrSorted, List.chain'_cons'] at hs₁; exact hs₁.2
      have hs₂' : StrSorted ys := by
        rw [StrSorted, List.chain'_cons'] at hs₂; exact hs₂.2
      rw [List.nodup_cons] at hn₁ hn₂
      have htails : ∀ a, a ∈ xs ↔ a ∈ ys := by
        intro a
        constructor
        · intro ha
          have : a ∈ x :: ys := (hm a).mp (List.mem_cons_of_mem _ ha)
          rcases List.mem_cons.mp this with he | ht
          · exact absurd (he ▸ ha) hn₁.1
          · exact ht
        · intro ha
          have : a ∈ x :: xs := (hm a).mpr (List.mem_cons_of_mem _ ha)
          rcases List.mem_cons.mp this with he | ht
          · exact absurd (he ▸ ha) hn₂.1
          · exact ht
      exact congrArg (x :: ·) (ih hs₁' hs₂' hn₁.2 hn₂.2 htails)

/-! ### Python `str.replace` (literal find/replace of all occurrences) -/

/-- Python `s.replace(t, r)` for a nonempty token `t`: scan left to right,
replacing every (non-overlapping) literal occurrence of `t` by `r`.
(For `t = []` this is the identity; the code only ever replaces nonempty
tokens, so Python's empty-pattern semantics is not needed.) -/
def replaceAll (t r : List Char) : List Char → List Char
  | [] => []
  | c :: cs =>
    if t ≠ [] ∧ t.isPrefixOf (c :: cs) then
      r ++ replaceAll t r ((c :: cs).drop t.length)
    else
      c :: replaceAll t r cs
termination_by s => s.length
decreasing_by
  · rename_i ht
    have : t.length ≥ 1 := by
      cases t with
      | nil => exact absurd rfl ht.1
      | cons a as => simp
    simp only [List.length_drop, List.length_cons]
    omega
  · simp

/-- Python `s.replace(old, new)` on strings. -/
def pyReplace (s old new : String) : String := ⟨replaceAll old.data new.data s.data⟩

/-- No occurrence of the token `t` can begin inside `x`, whatever text
follows `x`: no suffix of `x` is a prefix of `t` and `t` starts at no
position of `x`.  (This is what "the token does not collide with this
piece of text" means for a piece that is followed by arbitrary text.) -/
def noTokenStart (t x : List Char) : Bool :=
  (List.range x.length).all fun i =>
    !((x.drop i).isPrefixOf t) && !(t.isPrefixOf (x.drop i))

/-- The token `t` is nonempty and occurs nowhere in `s`. -/
def noOcc (t s : List Char) : Bool :=
  (List.range (s.length + 1)).all fun i => !(t.isPrefixOf (s.drop i))

theorem noTokenStart_iff {t x : List Char} :
    noTokenStart t x = true ↔
      ∀ i < x.length, ¬((x.drop i).isPrefixOf t = true) ∧
        ¬(t.isPrefixOf (x.drop i) = true) := by
  rw [noTokenStart, List.all_eq_true]
  constructor
  · intro h i hi
    have := h i (List.mem_range.mpr hi)
    simp only [Bool.and_eq_true, Bool.not_eq_true'] at this
    exact ⟨by simp [this.1], by simp [this.2]⟩
  · intro h i hi
    have := h i (List.mem_range.mp hi)
    simp only [Bool.and_eq_true, Bool.not_eq_true']
    exact ⟨by simp [this.1], by simp [this.2]⟩

theorem noOcc_iff {t s : List Char} :
    noOcc t s = true ↔ ∀ i ≤ s.length, ¬(t.isPrefixOf (s.drop i) = true) := by
  rw [noOcc, List.all_eq_true]
  constructor
  · intro h i hi
    have hh := h i (List.mem_range.mpr (Nat.lt_succ_of_le hi))
    simp only [Bool.not_eq_true'] at hh
    simp [hh]
  · intro h i hi
    have hle : i ≤ s.length := Nat.lt_succ_iff.mp (List.mem_range.mp hi)
    have hh := h i hle
    cases hb : t.isPrefixOf (s.drop i) with
    | false => simp [hb]
    | true => exact absurd hb hh

theorem noOcc_ne_nil {t s : List Char} (h : noOcc t s = true) : t ≠ [] := by
  intro he
  subst he
  have := noOcc_iff.mp h s.length (Nat.le_refl _)
  simp [List.isPrefixOf] at this

theorem noTokenStart_cons {t : List Char} {c : Char} {x : List Char}
    (h : noTokenStart t (c :: x) = true) : noTokenStart t x = true := by
  rw [noTokenStart_iff] at h ⊢
  intro i hi
  have := h (i + 1) (by simpa using Nat.succ_lt_succ hi)
  simpa using this

theorem noOcc_cons {t : List Char} {c : Char} {s : List Char}
    (h : noOcc t (c :: s) = true) : noOcc t s = true := by
  rw [noOcc_iff] at h ⊢
  intro i hi
  have := h (i + 1) (by simpa using Nat.succ_le_succ hi)
  simpa using this

/-- If `t` is a prefix of `x ++ s` then it is a prefix of `x`, or `x` is a
prefix of `t`. -/
theorem isPrefixOf_append_cases {t x s : List Char}
    (h : t.isPrefixOf (x ++ s) = true) :
    t.isPrefixOf x = true ∨ x.isPrefixOf t = true := by
  induction t generalizing x with
  | nil => left; simp
  | cons a as ih =>
    cases x with
    | nil => right; simp
    | cons b bs =>
      rw [List.cons_append, List.isPrefixOf_cons₂, Bool.and_eq_true] at h
      rcases ih h.2 with h' | h'
      · left
        rw [List.isPrefixOf_cons₂, Bool.and_eq_true]
        exact ⟨h.1, h'⟩
      · right
        rw [List.isPrefixOf_cons₂, Bool.and_eq_true]
        have hba := h.1
        rw [beq_iff_eq] at hba
        exact ⟨by simp [hba], h'⟩

/-- Replacement scans straight through a piece of text in which the token
cannot begin. -/
theorem replaceAll_append_of_noTokenStart {t r x : List Char}
    (h : noTokenStart t x = true) (s : List Char) :
    replaceAll t r (x ++ s) = x ++ replaceAll t r s := by
  induction x with
  | nil => simp
  | cons c cs ih =>
    have h0 := (noTokenStart_iff.mp h) 0 (by simp)
    simp only [List.drop_zero] at h0
    have hcond : ¬(t ≠ [] ∧ t.isPrefixOf (c :: (cs ++ s)) = true) := by
      rintro ⟨hne, hpre⟩
      have : t.isPrefixOf ((c :: cs) ++ s) = true := by simpa using hpre
      rcases isPrefixOf_append_cases this with h' | h'
      · exact h0.2 h'
      · exact h0.1 h'
    rw [List.cons_append, replaceAll, if_neg hcond]
    exact congrArg (c :: ·) (ih (noTokenStart_cons h))

theorem isPrefixOf_append_self (l s : List Char) : l.isPrefixOf (l ++ s) = true := by
  induction l with
  | nil => simp
  | cons a as ih => simp [List.isPrefixOf, ih]

/-- Replacement fires on a literal occurrence of the token. -/
theorem replaceAll_token (t r s : List Char) (ht : t ≠ []) :
    replaceAll t r (t ++ s) = r ++ replaceAll t r s := by
  cases t with
  | nil => exact absurd rfl ht
  | cons a as =>
    rw [List.cons_append, replaceAll, if_pos]
    · have hd : ((a :: as) ++ s).drop (a :: as).length = s := by
        simp [List.drop_left]
      rw [← List.cons_append, hd]
    · constructor
      · simp
      · rw [← List.cons_append]
        exact isPrefixOf_append_self _ _

/-- If the (nonempty) token occurs nowhere in `s`, replacement is the
identity on `s`. -/
theorem replaceAll_of_noOcc {t r s : List Char} (h : noOcc t s = true) :
    replaceAll t r s = s := by
  induction s with
  | nil => simp [replaceAll]
  | cons c cs ih =>
    have h0 := noOcc_iff.mp h 0 (Nat.zero_le _)
    simp only [List.drop_zero] at h0
    rw [replaceAll, if_neg (by rintro ⟨_, hp⟩; exact h0 hp)]
    exact congrArg (c :: ·) (ih (noOcc_cons h))

/-! ### IPv4 address parsing and printing

The `ipaddress` module's IPv4 parsing, restricted to what the code under
verification feeds it.  (The BGP flow is explicitly IPv4-only — see the
`TODO` at `tasks.py` line 313 — and every layer-2 claim under
consideration concerns an IPv4 subnet, so IPv6 literal parsing is not
modelled; feeding a v6 literal to these parsers yields `valueError`.) -/

/-- `"".join`-style digit sequence to number (the strings fed in are
checked to be all digits first). -/
def digitsToNat (l : List Char) : Nat :=
  l.foldl (fun n c => n * 10 + (c.toNat - '0'.toNat)) 0

/-- Python `str.split(sep)`: split at every occurrence of `sep`, keeping
empty pieces. -/
def splitOnChar (sep : Char) : List Char → List (List Char)
  | [] => [[]]
  | c :: cs =>
    match splitOnChar sep cs with
    | [] => if c = sep then [[], []] else [[c]]
    | g :: gs => if c = sep then [] :: g :: gs else (c :: g) :: gs

/-- `ipaddress._parse_octet`: one dotted-quad component; 1–3 decimal
digits, no leading zero, value at most 255. -/
def parseOctet (l : List Char) : Option Nat :=
  if l = [] then none
  else if ¬ l.all Char.isDigit then none
  else if l.length > 3 then none
  else if l.length > 1 ∧ l.head? = some '0' then none
  else
    let v := digitsToNat l
    if v ≤ 255 then some v else none

/-- Dotted-quad IPv4 address string to its ordinal value. -/
def parseIPv4Addr (l : List Char) : Option Nat :=
  match splitOnChar '.' l with
  | [a, b, c, d] =>
    match parseOctet a, parseOctet b, parseOctet c, parseOctet d with
    | some a, some b, some c, some d => some (((a * 256 + b) * 256 + c) * 256 + d)
    | _, _, _, _ => none
  | _ => none

/-- A decimal prefix length `0 ≤ p ≤ 32` (netmask/hostmask spellings are
not modelled: the code only ever passes `"a.b.c.d/len"` or bare
addresses). -/
def parsePrefixLen (l : List Char) : Option Nat :=
  if l ≠ [] ∧ l.all Char.isDigit then
    let v := digitsToNat l
    if v ≤ 32 then some v else none
  else none

/-- `ipaddress.ip_interface(s)` for IPv4: returns the address ordinal
value and the prefix length (32 when no `/len` part is given).  Any parse
failure is a `ValueError`. -/
def ip_interface (s : String) : Except Err (Nat × Nat) :=
  match splitOnChar '/' s.data with
  | [a] =>
    match parseIPv4Addr a with
    | some v => .ok (v, 32)
    | none => .error .valueError
  | [a, p] =>
    match parseIPv4Addr a, parsePrefixLen p with
    | some v, some pl => .ok (v, pl)
    | _, _ => .error .valueError
  | _ => .error .valueError

/-- `ipaddress.ip_network(s)` for IPv4 (strict, the default): like
`ip_interface` but the host bits must all be zero. -/
def ip_network (s : String) : Except Err (Nat × Nat) :=
  match ip_interface s with
  | .ok (v, p) => if v % 2 ^ (32 - p) = 0 then .ok (v, p) else .error .valueError
  | .error e => .error e

/-- `addr in network`: the network-masked bits of `addr` agree with the
network address (whose host bits are zero); `ipaddress` computes
`addr & netmask == network_address`, which for a network address with
zero host bits is clearing the low `32 - p` bits. -/
def inNetwork (addr netAddr p : Nat) : Bool :=
  addr / 2 ^ (32 - p) * 2 ^ (32 - p) = netAddr

/-- `str(IPv4Address(v))`: dotted-quad rendering. -/
def ipv4Str (v : Nat) : String :=
  toString (v / 2 ^ 24 % 256) ++ "." ++ toString (v / 2 ^ 16 % 256) ++ "."
    ++ toString (v / 2 ^ 8 % 256) ++ "." ++ toString (v % 256)

/-! ### The layer-2 allocator (`layer2_dev_env`, `tasks.py` lines 278–294) -/

/-- The body of the `for i in network_subnet_list` loop for one subnet
string, faithful to `tasks.py` lines 280–294:

* parse the subnet (`ipaddress.ip_network(i)`; the modelled claims all
  concern IPv4 subnets, for which the matching used list is
  `sorted(used_ipv4_list)` — Python string sort);
* take `used_list[-1]` (an `IndexError` on an empty list);
* `start = ip_interface(used_list[-1]) + 1`,
  `end = ip_interface(used_list[-1]) + 11` — integer successor of the
  address ordinal; constructing an address value `≥ 2^32` raises
  `AddressValueError` (modelled `valueError`), `end` being constructed
  before either membership test;
* `Exit('network range %s is not in %s')` when `start` (then `end`) is
  not in the subnet — `%s` of an interface prints `addr/32` here, since
  interface + int rebuilds the interface with the default /32 length;
* on success, record `(version, '%s-%s' % (start.ip, end.ip))`. -/
def layer2RangeForSubnet (subnetStr : String) (usedV4 : List String) :
    Except Err (Nat × String) :=
  match ip_network subnetStr with
  | .error e => .error e
  | .ok (netAddr, p) =>
    -- used_list = sorted(used_ipv4_list); used_list[-1] is its last element
    match (sortStrings usedV4).getLast? with
    | none => .error .indexError
    | some lastStr =>
      match ip_interface lastStr with
      | .error e => .error e
      | .ok (lastAddr, _) =>
        -- service_ip_range_start = ip_interface(used_list[-1]) + 1
        if 2 ^ 32 ≤ lastAddr + 1 then .error .valueError
        -- service_ip_range_end = ip_interface(used_list[-1]) + 11
        else if 2 ^ 32 ≤ lastAddr + 11 then .error .valueError
        else if ¬ inNetwork (lastAddr + 1) netAddr p then
          .error (.exit ("network range " ++ ipv4Str (lastAddr + 1) ++ "/32 is not in "
            ++ ipv4Str netAddr ++ "/" ++ toString p))
        else if ¬ inNetwork (lastAddr + 11) netAddr p then
          .error (.exit ("network range " ++ ipv4Str (lastAddr + 11) ++ "/32 is not in "
            ++ ipv4Str netAddr ++ "/" ++ toString p))
        else .ok (4, ipv4Str (lastAddr + 1) ++ "-" ++ ipv4Str (lastAddr + 11))

/-- Python dict assignment `d[k] = v` on an association list. -/
def dictInsert : List (Nat × String) → Nat → String → List (Nat × String)
  | [], k, v => [(k, v)]
  | (k', v') :: rest, k, v =>
    if k' = k then (k, v) :: rest else (k', v') :: dictInsert rest k v

/-- The whole `service_range` computation: the loop over
`network_subnet_list`, accumulating `service_range[version] = '%s-%s'`. -/
def layer2ServiceRanges (subnets : List String) (usedV4 : List String) :
    Except Err (List (Nat × String)) :=
  go subnets []
where
  go : List String → List (Nat × String) → Except Err (List (Nat × String))
    | [], acc => .ok acc
    | s :: rest, acc =>
      match layer2RangeForSubnet s usedV4 with
      | .error e => .error e
      | .ok (ver, str) => go rest (dictInsert acc ver str)

/-! ### Template rendering -/

/-- The warning line prepended to YAML-style outputs (`'#'` comments). -/
def autogenHash : String := "# THIS FILE IS AUTOGENERATED\n"

/-- The warning line prepended to the frr `bgpd.conf` (`'!'` comments). -/
def autogenBang : String := "! THIS FILE IS AUTOGENERATED\n"

/-- `tasks.py` lines 297–300: prepend the warning to the template text,
then substitute both service ranges. -/
def layer2Render (tmpl v4range v6range : String) : String :=
  pyReplace (pyReplace (autogenHash ++ tmpl) "SERVICE_V4_RANGE" v4range)
    "SERVICE_V6_RANGE" v6range

/-- `"NODE%d_IP" % n`. -/
def nodeToken (n : Nat) : String := "NODE" ++ toString n ++ "_IP"

/-- `for n in range(0, len(node_ips)): config = config.replace(...)`. -/
def bgpSubst : String → List String → Nat → String
  | cfg, [], _ => cfg
  | cfg, ip :: rest, n => bgpSubst (pyReplace cfg (nodeToken n) ip) rest (n + 1)

/-- `tasks.py` lines 343–346: warning line plus node-IP substitution. -/
def bgpdRender (tmpl : String) (nodeIps : List String) : String :=
  bgpSubst (autogenBang ++ tmpl) nodeIps 0

/-- The BGP flow from the node-count check to the rendered `bgpd.conf`
content (`tasks.py` lines 318–348): with a node list whose length is not
exactly 3 it aborts with `Exit('Expected 3 nodes, got %d')` before any
template work; otherwise it produces the rendered configuration. -/
def bgpDevEnvBgpd (tmpl : String) (nodeIps : List String) : Except Err String :=
  if nodeIps.length ≠ 3 then
    .error (.exit ("Expected 3 nodes, got " ++ toString nodeIps.length))
  else .ok (bgpdRender tmpl nodeIps)

/-- `tasks.py` lines 359–361: the BGP MetalLB ConfigMap render
(`PEER_ADDRESS` substitution). -/
def bgpConfigYamlRender (tmpl peer : String) : String :=
  pyReplace (autogenHash ++ tmpl) "PEER_ADDRESS" peer

/-! ### Argument validation (`_check_architectures`, `_check_binaries`) -/

def all_architectures : List String := ["amd64", "arm", "arm64", "ppc64le", "s390x"]

def all_binaries : List String := ["controller", "speaker", "mirror-server"]

/-- Python `set.add` on a duplicate-free list. -/
def setAdd (s : List String) (x : String) : List String :=
  if x ∈ s then s else s ++ [x]

/-- Python `set |= collection`. -/
def setUnion (s : List String) (xs : List String) : List String :=
  xs.foldl setAdd s

/-- The validation loop shared (textually identical up to the supported
set) by `_check_architectures` and `_check_binaries`: `"all"` unions in
the whole supported set, an unknown name prints a diagnostic and exits
the process with status 1, a known name is added to the set. -/
def checkLoop (allSet : List String) : List String → List String → Except Err (List String)
  | [], out => .ok out
  | x :: rest, out =>
    if x = "all" then checkLoop allSet rest (setUnion out allSet)
    else if x ∈ allSet then checkLoop allSet rest (setAdd out x)
    else .error (.sysExit 1)

/-- `_check_architectures` (`tasks.py` lines 26–39): run the loop, default
an empty result to `{"amd64"}`, return `list(sorted(out))`. -/
def check_architectures (architectures : List String) : Except Err (List String) :=
  match checkLoop all_architectures architectures [] with
  | .error e => .error e
  | .ok out =>
    let out := if out.isEmpty then setAdd out "amd64" else out
    .ok (sortStrings out)

/-- `_check_binaries` (`tasks.py` lines 41–55): run the loop, default an
empty result to `{"controller", "speaker"}`, return `list(sorted(out))`. -/
def check_binaries (binaries : List String) : Except Err (List String) :=
  match checkLoop all_binaries binaries [] with
  | .error e => .error e
  | .ok out =>
    let out := if out.isEmpty then setAdd (setAdd out "controller") "speaker" else out
    .ok (sortStrings out)

/-! ### Lemmas about the Python-set model and the validation loop -/

theorem mem_setAdd {s : List String} {x a : String} :
    a ∈ setAdd s x ↔ a ∈ s ∨ a = x := by
  by_cases h : x ∈ s
  · simp only [setAdd, if_pos h]
    constructor
    · exact Or.inl
    · rintro (ha | ha)
      · exact ha
      · exact ha ▸ h
  · simp [setAdd, if_neg h]

theorem nodup_setAdd {s : List String} {x : String} (h : s.Nodup) :
    (setAdd s x).Nodup := by
  by_cases hx : x ∈ s
  · simpa [setAdd, if_pos hx] using h
  · rw [setAdd, if_neg hx]
    simpa [List.nodup_append] using ⟨h, hx⟩

theorem mem_setUnion {s : List String} {xs : List String} {a : String} :
    a ∈ setUnion s xs ↔ a ∈ s ∨ a ∈ xs := by
  induction xs generalizing s with
  | nil => simp [setUnion]
  | cons x rest ih =>
    rw [setUnion, List.foldl_cons]
    have : a ∈ List.foldl setAdd (setAdd s x) rest ↔ a ∈ setAdd s x ∨ a ∈ rest := ih
    rw [this, mem_setAdd]
    simp [List.mem_cons]
    tauto

theorem nodup_setUnion {s : List String} {xs : List String} (h : s.Nodup) :
    (setUnion s xs).Nodup := by
  induction xs generalizing s with
  | nil => simpa [setUnion] using h
  | cons x rest ih =>
    rw [setUnion, List.foldl_cons]
    exact ih (nodup_setAdd h)

theorem checkLoop_subset {A : List String} :
    ∀ {args out res : List String}, checkLoop A args out = .ok res →
      (∀ x ∈ out, x ∈ A) → ∀ x ∈ res, x ∈ A := by
  intro args
  induction args with
  | nil =>
    intro out res h hout
    simp only [checkLoop] at h
    cases h
    exact hout
  | cons a rest ih =>
    intro out res h hout
    rw [checkLoop] at h
    by_cases ha : a = "all"
    · rw [if_pos ha] at h
      refine ih h ?_
      intro x hx
      rcases mem_setUnion.mp hx with hx | hx
      · exact hout x hx
      · exact hx
    · rw [if_neg ha] at h
      by_cases hm : a ∈ A
      · rw [if_pos hm] at h
        refine ih h ?_
        intro x hx
        rcases mem_setAdd.mp hx with hx | hx
        · exact hout x hx
        · exact hx ▸ hm
      · rw [if_neg hm] at h
        cases h

theorem checkLoop_mono {A : List String} :
    ∀ {args out res : List String}, checkLoop A args out = .ok res →
      ∀ x ∈ out, x ∈ res := by
  intro args
  induction args with
  | nil =>
    intro out res h
    simp only [checkLoop] at h
    cases h
    exact fun x hx => hx
  | cons a rest ih =>
    intro out res h
    rw [checkLoop] at h
    by_cases ha : a = "all"
    · rw [if_pos ha] at h
      exact fun x hx => ih h x (mem_setUnion.mpr (Or.inl hx))
    · rw [if_neg ha] at h
      by_cases hm : a ∈ A
      · rw [if_pos hm] at h
        exact fun x hx => ih h x (mem_setAdd.mpr (Or.inl hx))
      · rw [if_neg hm] at h
        cases h

theorem checkLoop_all_mem {A : List String} :
    ∀ {args out res : List String}, checkLoop A args out = .ok res →
      "all" ∈ args → ∀ x ∈ A, x ∈ res := by
  intro args
  induction args with
  | nil =>
    intro out res _ hall
    cases hall
  | cons a rest ih =>
    intro out res h hall
    rw [checkLoop] at h
    by_cases ha : a = "all"
    · rw [if_pos ha] at h
      exact fun x hx => checkLoop_mono h x (mem_setUnion.mpr (Or.inr hx))
    · rw [if_neg ha] at h
      have hrest : "all" ∈ rest := by
        rcases List.mem_cons.mp hall with he | ht
        · exact absurd he.symm ha
        · exact ht
      by_cases hm : a ∈ A
      · rw [if_pos hm] at h
        exact ih h hrest
      · rw [if_neg hm] at h
        cases h

theorem checkLoop_nodup {A : List String} :
    ∀ {args out res : List String}, checkLoop A args out = .ok res →
      out.Nodup → res.Nodup := by
  intro args
  induction args with
  | nil =>
    intro out res h hout
    simp only [checkLoop] at h
    cases h
    exact hout
  | cons a rest ih =>
    intro out res h hout
    rw [checkLoop] at h
    by_cases ha : a = "all"
    · rw [if_pos ha] at h
      exact ih h (nodup_setUnion hout)
    · rw [if_neg ha] at h
      by_cases hm : a ∈ A
      · rw [if_pos hm] at h
        exact ih h (nodup_setAdd hout)
      · rw [if_neg hm] at h
        cases h

theorem checkLoop_ok_of_valid {A : List String} :
    ∀ {args : List String} (out : List String),
      (∀ a ∈ args, a = "all" ∨ a ∈ A) →
      ∃ res, checkLoop A args out = .ok res := by
  intro args
  induction args with
  | nil => exact fun out _ => ⟨out, rfl⟩
  | cons a rest ih =>
    intro out hvalid
    rcases hvalid a (List.mem_cons_self a rest) with ha | ha
    · obtain ⟨res, hres⟩ := ih (setUnion out A)
        (fun x hx => hvalid x (List.mem_cons_of_mem a hx))
      exact ⟨res, by rw [checkLoop, if_pos ha]; exact hres⟩
    · by_cases hall : a = "all"
      · obtain ⟨res, hres⟩ := ih (setUnion out A)
          (fun x hx => hvalid x (List.mem_cons_of_mem a hx))
        exact ⟨res, by rw [checkLoop, if_pos hall]; exact hres⟩
      · obtain ⟨res, hres⟩ := ih (setAdd out a)
          (fun x hx => hvalid x (List.mem_cons_of_mem a hx))
        exact ⟨res, by rw [checkLoop, if_neg hall, if_pos ha]; exact hres⟩

theorem checkLoop_error_of_invalid {A : List String} :
    ∀ {args : List String} (out : List String),
      (∃ a ∈ args, a ≠ "all" ∧ a ∉ A) →
      checkLoop A args out = .error (.sysExit 1) := by
  intro args
  induction args with
  | nil =>
    rintro out ⟨a, ha, _⟩
    cases ha
  | cons b rest ih =>
    rintro out ⟨a, ha, hne, hnm⟩
    rw [checkLoop]
    by_cases hb : b = "all"
    · rw [if_pos hb]
      refine ih _ ⟨a, ?_, hne, hnm⟩
      rcases List.mem_cons.mp ha with he | ht
      · exact absurd (he ▸ hb) hne
      · exact ht
    · rw [if_neg hb]
      by_cases hbm : b ∈ A
      · rw [if_pos hbm]
        refine ih _ ⟨a, ?_, hne, hnm⟩
        rcases List.mem_cons.mp ha with he | ht
        · exact absurd (he ▸ hbm) hnm
        · exact ht
      · rw [if_neg hbm]

theorem mem_of_getLast?_strings : ∀ {l : List String} {m : String},
    l.getLast? = some m → m ∈ l := by
  intro l
  induction l with
  | nil => intro m h; cases h
  | cons x xs ih =>
    intro m h
    cases xs with
    | nil =>
      simp at h
      exact h ▸ List.mem_cons_self x []
    | cons y ys =>
      rw [List.getLast?_cons_cons] at h
      exact List.mem_cons_of_mem x (ih h)

/-! ### Helper lemmas for the rendering theorems -/

theorem strData_append (s t : String) : (s ++ t).data = s.data ++ t.data := by
  cases s; cases t; rfl

theorem pyReplace_data (s old new : String) :
    (pyReplace s old new).data = replaceAll old.data new.data s.data := rfl

/-- A single replacement step keeps a leading piece of text in which the
token cannot begin. -/
theorem pyReplace_keeps_lead {w : String} {old : String} (cfg new : String)
    (hw : noTokenStart old.data w.data = true)
    (h : ∃ rest, cfg.data = w.data ++ rest) :
    ∃ rest, (pyReplace cfg old new).data = w.data ++ rest := by
  obtain ⟨rest, hr⟩ := h
  refine ⟨replaceAll old.data new.data rest, ?_⟩
  rw [pyReplace_data, hr, replaceAll_append_of_noTokenStart hw]

/-- One full replacement pass over `x ++ t ++ y` when the token `t` cannot
begin inside `x` and does not occur in `y`: exactly the explicit
occurrence is replaced. -/
theorem replaceAll_once {t : List Char} (r : List Char) {x y : List Char}
    (hx : noTokenStart t x = true) (hy : noOcc t y = true) :
    replaceAll t r (x ++ (t ++ y)) = x ++ (r ++ y) := by
  rw [replaceAll_append_of_noTokenStart hx,
    replaceAll_token _ _ _ (noOcc_ne_nil hy), replaceAll_of_noOcc hy]

/-! ### Claim theorems -/

/-- C4: for every node-IP list whose length is not exactly 3, the BGP flow
fails with the topology `Exit` error stating expected vs. actual count
(`'Expected 3 nodes, got %d'`), and does so before performing any template
substitution — the outcome is the same whatever the template text is. -/
theorem c4_bgp_node_count_guard (tmpl : String) (ips : List String)
    (h : ips.length ≠ 3) :
    bgpDevEnvBgpd tmpl ips =
      .error (.exit ("Expected 3 nodes, got " ++ toString ips.length)) ∧
    ∀ tmpl' : String, bgpDevEnvBgpd tmpl ips = bgpDevEnvBgpd tmpl' ips := by
  constructor
  · rw [bgpDevEnvBgpd, if_pos h]
  · intro tmpl'
    rw [bgpDevEnvBgpd, if_pos h, bgpDevEnvBgpd, if_pos h]

/-- Witness for C4 at a concrete 2-element node list. -/
theorem c4_witness :
    bgpDevEnvBgpd "neighbor NODE0_IP\n" ["10.89.0.2", "10.89.0.3"] =
      .error (.exit ("Expected 3 nodes, got " ++ toString (2 : Nat))) ∧
    ∀ tmpl' : String,
      bgpDevEnvBgpd "neighbor NODE0_IP\n" ["10.89.0.2", "10.89.0.3"] =
        bgpDevEnvBgpd tmpl' ["10.89.0.2", "10.89.0.3"] :=
  c4_bgp_node_count_guard "neighbor NODE0_IP\n" ["10.89.0.2", "10.89.0.3"] (by decide)

/-- C6: every render path emits the autogeneration warning line first:
the layer-2 config render and the BGP MetalLB config render start with
`"# THIS FILE IS AUTOGENERATED\n"`, and any `bgpd.conf` produced by the
BGP flow starts with `"! THIS FILE IS AUTOGENERATED\n"`, whatever the
template text and substitution values. -/
theorem c6_autogen_warning_first :
    (∀ tmpl v4 v6 : String,
      ∃ rest, (layer2Render tmpl v4 v6).data = autogenHash.data ++ rest) ∧
    (∀ (tmpl : String) (ips : List String) (out : String),
      bgpDevEnvBgpd tmpl ips = .ok out →
      ∃ rest, out.data = autogenBang.data ++ rest) ∧
    (∀ tmpl peer : String,
      ∃ rest, (bgpConfigYamlRender tmpl peer).data = autogenHash.data ++ rest) := by
  have hv4 : noTokenStart ("SERVICE_V4_RANGE" : String).data autogenHash.data = true := by
    decide
  have hv6 : noTokenStart ("SERVICE_V6_RANGE" : String).data autogenHash.data = true := by
    decide
  have hpeer : noTokenStart ("PEER_ADDRESS" : String).data autogenHash.data = true := by
    decide
  have hn0 : noTokenStart (nodeToken 0).data autogenBang.data = true := by decide
  have hn1 : noTokenStart (nodeToken 1).data autogenBang.data = true := by decide
  have hn2 : noTokenStart (nodeToken 2).data autogenBang.data = true := by decide
  refine ⟨?_, ?_, ?_⟩
  · intro tmpl v4 v6
    exact pyReplace_keeps_lead _ _ hv6
      (pyReplace_keeps_lead _ _ hv4 ⟨tmpl.data, strData_append _ _⟩)
  · intro tmpl ips out h
    rw [bgpDevEnvBgpd] at h
    by_cases hlen : ips.length ≠ 3
    · rw [if_pos hlen] at h
      cases h
    · rw [if_neg hlen] at h
      have h3 : ips.length = 3 := not_not.mp hlen
      obtain ⟨x, y, z, hips⟩ : ∃ x y z, ips = [x, y, z] := by
        cases ips with
        | nil => simp at h3
        | cons x t1 =>
          cases t1 with
          | nil => simp at h3
          | cons y t2 =>
            cases t2 with
            | nil => simp at h3
            | cons z t3 =>
              cases t3 with
              | nil => exact ⟨x, y, z, rfl⟩
              | cons w t4 => simp at h3
      subst hips
      cases h
      show ∃ rest, (bgpSubst (autogenBang ++ tmpl) [x, y, z] 0).data = _
      rw [bgpSubst, bgpSubst, bgpSubst, bgpSubst]
      exact pyReplace_keeps_lead _ _ hn2
        (pyReplace_keeps_lead _ _ hn1
          (pyReplace_keeps_lead _ _ hn0 ⟨tmpl.data, strData_append _ _⟩))
  · intro tmpl peer
    exact pyReplace_keeps_lead _ _ hpeer ⟨tmpl.data, strData_append _ _⟩

/-- Witness for C6 (its second conjunct carries a hypothesis): a concrete
successful BGP render starts with the warning line. -/
theorem c6_witness :
    ∃ rest, (bgpdRender "n NODE0_IP\n" ["10.0.0.2", "10.0.0.3", "10.0.0.4"]).data
      = autogenBang.data ++ rest :=
  c6_autogen_warning_first.2.1 "n NODE0_IP\n" ["10.0.0.2", "10.0.0.3", "10.0.0.4"]
    (bgpdRender "n NODE0_IP\n" ["10.0.0.2", "10.0.0.3", "10.0.0.4"]) rfl

/-- C7: rendering is deterministic — two invocations on equal template
content, equal substitution values and equal node lists produce identical
output, on all three render paths. -/
theorem c7_render_deterministic
    (t₁ t₂ v₁ v₂ u₁ u₂ b₁ b₂ y₁ y₂ p₁ p₂ : String) (ips₁ ips₂ : List String)
    (ht : t₁ = t₂) (hv : v₁ = v₂) (hu : u₁ = u₂) (hb : b₁ = b₂)
    (hy : y₁ = y₂) (hi : ips₁ = ips₂) (hp : p₁ = p₂) :
    layer2Render t₁ v₁ u₁ = layer2Render t₂ v₂ u₂ ∧
    bgpDevEnvBgpd b₁ ips₁ = bgpDevEnvBgpd b₂ ips₂ ∧
    bgpConfigYamlRender y₁ p₁ = bgpConfigYamlRender y₂ p₂ := by
  subst ht; subst hv; subst hu; subst hb; subst hy; subst hi; subst hp
  exact ⟨rfl, rfl, rfl⟩

/-- Witness for C7 at concrete inputs. -/
theorem c7_witness :
    layer2Render "a: SERVICE_V4_RANGE\n" "10.0.0.1-10.0.0.11" "fc00::1-fc00::b"
      = layer2Render "a: SERVICE_V4_RANGE\n" "10.0.0.1-10.0.0.11" "fc00::1-fc00::b" ∧
    bgpDevEnvBgpd "n NODE0_IP\n" ["10.0.0.2", "10.0.0.3", "10.0.0.4"]
      = bgpDevEnvBgpd "n NODE0_IP\n" ["10.0.0.2", "10.0.0.3", "10.0.0.4"] ∧
    bgpConfigYamlRender "peer: PEER_ADDRESS\n" "10.89.0.5"
      = bgpConfigYamlRender "peer: PEER_ADDRESS\n" "10.89.0.5" :=
  c7_render_deterministic "a: SERVICE_V4_RANGE\n" "a: SERVICE_V4_RANGE\n"
    "10.0.0.1-10.0.0.11" "10.0.0.1-10.0.0.11" "fc00::1-fc00::b" "fc00::1-fc00::b"
    "n NODE0_IP\n" "n NODE0_IP\n" "peer: PEER_ADDRESS\n" "peer: PEER_ADDRESS\n"
    "10.89.0.5" "10.89.0.5"
    ["10.0.0.2", "10.0.0.3", "10.0.0.4"] ["10.0.0.2", "10.0.0.3", "10.0.0.4"]
    rfl rfl rfl rfl rfl rfl rfl

/-- C8 counterexample: on an empty used-address list the layer-2
allocator does NOT fail with a clear, named error — `used_list[-1]`
raises an unguarded `IndexError` (an uninterpretable crash), not the
message-carrying `Exit` used for range errors. -/
theorem c8_counterexample :
    layer2RangeForSubnet "10.240.0.0/17" [] = .error .indexError ∧
    Err.isExit .indexError = false :=
  ⟨rfl, rfl⟩

/-- C8 amended: for every subnet string that parses as an IPv4 network,
the allocator applied to an empty used-address list crashes with the
unguarded `IndexError` from `used_list[-1]` — it aborts (never computes a
range), but not through the allocator's own interpretable error path. -/
theorem c8_empty_used_list_crash (subnet : String) (netAddr p : Nat)
    (hn : ip_network subnet = .ok (netAddr, p)) :
    layer2RangeForSubnet subnet [] = .error .indexError ∧
    Err.isExit .indexError = false := by
  refine ⟨?_, rfl⟩
  rw [layer2RangeForSubnet, hn]
  rfl

/-- Witness for the C8 amended theorem. -/
theorem c8_witness :
    layer2RangeForSubnet "192.168.10.0/24" [] = .error .indexError ∧
    Err.isExit .indexError = false :=
  c8_empty_used_list_crash "192.168.10.0/24" 3232238080 24 rfl

/-- C1: whenever the layer-2 allocator succeeds on a subnet, the range it
records is exactly `start = last + 1`, `end = last + 11` for `last` the
parsed value of the last element of the sorted used list, both endpoints
lie in the subnet, and `end - start = 10`; in particular, for subnet
`10.240.0.0/17` with highest used address `10.240.0.5` the recorded entry
is `(4, "10.240.0.6-10.240.0.16")`. -/
theorem c1_range_arithmetic (subnet : String) (usedV4 : List String)
    (ver : Nat) (s : String)
    (h : layer2RangeForSubnet subnet usedV4 = .ok (ver, s)) :
    (∃ netAddr p lastStr lastAddr pfx,
      ip_network subnet = .ok (netAddr, p) ∧
      (sortStrings usedV4).getLast? = some lastStr ∧
      ip_interface lastStr = .ok (lastAddr, pfx) ∧
      inNetwork (lastAddr + 1) netAddr p = true ∧
      inNetwork (lastAddr + 11) netAddr p = true ∧
      s = ipv4Str (lastAddr + 1) ++ "-" ++ ipv4Str (lastAddr + 11) ∧
      (lastAddr + 11) - (lastAddr + 1) = 10) ∧
    layer2ServiceRanges ["10.240.0.0/17"]
        ["10.240.0.2/17", "10.240.0.3/17", "10.240.0.5/17"] =
      .ok [(4, "10.240.0.6-10.240.0.16")] := by
  refine ⟨?_, rfl⟩
  rw [layer2RangeForSubnet] at h
  split at h
  · cases h
  next netAddr p hn =>
    split at h
    · cases h
    next lastStr hl =>
      split at h
      · cases h
      next lastAddr pfx hi =>
        split at h
        · cases h
        next hov1 =>
          split at h
          · cases h
          next hov2 =>
            split at h
            · cases h
            next hin1 =>
              split at h
              · cases h
              next hin2 =>
                cases h
                exact ⟨netAddr, p, lastStr, lastAddr, pfx, hn, hl, hi,
                  not_not.mp hin1, not_not.mp hin2, rfl, by omega⟩

/-- Witness for C1: the spec's own example. -/
theorem c1_witness :
    (∃ netAddr p lastStr lastAddr pfx,
      ip_network "10.240.0.0/17" = .ok (netAddr, p) ∧
      (sortStrings ["10.240.0.2/17", "10.240.0.3/17", "10.240.0.5/17"]).getLast?
        = some lastStr ∧
      ip_interface lastStr = .ok (lastAddr, pfx) ∧
      inNetwork (lastAddr + 1) netAddr p = true ∧
      inNetwork (lastAddr + 11) netAddr p = true ∧
      ("10.240.0.6-10.240.0.16" : String)
        = ipv4Str (lastAddr + 1) ++ "-" ++ ipv4Str (lastAddr + 11) ∧
      (lastAddr + 11) - (lastAddr + 1) = 10) ∧
    layer2ServiceRanges ["10.240.0.0/17"]
        ["10.240.0.2/17", "10.240.0.3/17", "10.240.0.5/17"] =
      .ok [(4, "10.240.0.6-10.240.0.16")] :=
  c1_range_arithmetic "10.240.0.0/17"
    ["10.240.0.2/17", "10.240.0.3/17", "10.240.0.5/17"] 4
    "10.240.0.6-10.240.0.16" rfl

/-- Modelled from the spec, for comparison with the code (claim C2): the
claimed selection rule — parse the used addresses, take the maximum under
standard numeric address ordering, and build
`"<max+1>-<max+11>"` from it. -/
def specNumericMaxRange (usedV4 : List String) : Option String :=
  let vals := usedV4.filterMap fun s =>
    match ip_interface s with
    | .ok (v, _) => some v
    | .error _ => none
  match vals with
  | [] => none
  | v :: vs =>
    let m := vs.foldl Nat.max v
    some (ipv4Str (m + 1) ++ "-" ++ ipv4Str (m + 11))

/-- C2 counterexample: with used addresses `10.240.0.10` and `10.240.0.5`,
Python's `sorted` orders the STRINGS (`"10.240.0.10" < "10.240.0.5"`), so
the code bases the range on `10.240.0.5`, not on the numeric maximum
`10.240.0.10`: the recorded range differs from the numeric-max range the
claim prescribes. -/
theorem c2_counterexample :
    layer2RangeForSubnet "10.240.0.0/17" ["10.240.0.10", "10.240.0.5"] =
      .ok (4, "10.240.0.6-10.240.0.16") ∧
    specNumericMaxRange ["10.240.0.10", "10.240.0.5"] =
      some "10.240.0.11-10.240.0.21" ∧
    ("10.240.0.6-10.240.0.16" : String) ≠ "10.240.0.11-10.240.0.21" :=
  ⟨rfl, rfl, by decide⟩

/-- C2 amended: the allocator selects as `last` the maximum of the used
address STRINGS under Python's lexicographic string order (which need not
be the numeric maximum when the strings differ in length), and bases
`start = last + 1`, `end = last + 11` on that string's parsed value. -/
theorem c2_lexicographic_max (subnet : String) (usedV4 : List String)
    (ver : Nat) (s : String)
    (h : layer2RangeForSubnet subnet usedV4 = .ok (ver, s)) :
    ∃ m lastAddr pfx, m ∈ usedV4 ∧ (∀ x ∈ usedV4, strLe x m = true) ∧
      ip_interface m = .ok (lastAddr, pfx) ∧
      s = ipv4Str (lastAddr + 1) ++ "-" ++ ipv4Str (lastAddr + 11) := by
  rw [layer2RangeForSubnet] at h
  split at h
  · cases h
  next netAddr p hn =>
    split at h
    · cases h
    next lastStr hl =>
      split at h
      · cases h
      next lastAddr pfx hi =>
        split at h
        · cases h
        next hov1 =>
          split at h
          · cases h
          next hov2 =>
            split at h
            · cases h
            next hin1 =>
              split at h
              · cases h
              next hin2 =>
                cases h
                refine ⟨lastStr, lastAddr, pfx, ?_, ?_, hi, rfl⟩
                · exact mem_sortStrings.mp (mem_of_getLast?_strings hl)
                · intro x hx
                  exact sorted_le_getLast (sorted_sortStrings usedV4) hl x
                    (mem_sortStrings.mpr hx)

/-- Witness for the C2 amended theorem at the counterexample input. -/
theorem c2_witness :
    ∃ m lastAddr pfx, m ∈ ["10.240.0.10", "10.240.0.5"] ∧
      (∀ x ∈ ["10.240.0.10", "10.240.0.5"], strLe x m = true) ∧
      ip_interface m = .ok (lastAddr, pfx) ∧
      ("10.240.0.6-10.240.0.16" : String)
        = ipv4Str (lastAddr + 1) ++ "-" ++ ipv4Str (lastAddr + 11) :=
  c2_lexicographic_max "10.240.0.0/17" ["10.240.0.10", "10.240.0.5"] 4
    "10.240.0.6-10.240.0.16" rfl

/-- C3 counterexample: for a subnet at the very top of the IPv4 space the
claim's scenario (used addresses near the subnet's last host address, so
that `end` falls outside the subnet) does NOT produce the range-error
`Exit`: constructing `last + 11 = 2^32 + 5` raises `AddressValueError`
(an uncaught `ValueError`) before any membership check runs. -/
theorem c3_counterexample :
    layer2RangeForSubnet "255.255.255.0/24" ["255.255.255.250"] =
      .error .valueError ∧
    Err.isExit .valueError = false :=
  ⟨rfl, rfl⟩

/-- C3 amended: provided the incremented addresses stay representable
(`last + 11 < 2^32`), a `start` or `end` outside the subnet makes the
allocator fail with the `Exit` error naming the offending address (as
`addr/32`) and the subnet — it never returns a wrapped or truncated
range.  (When the increment overflows the 32-bit space, the failure is an
`AddressValueError` crash instead — see the counterexample.) -/
theorem c3_range_error_exit (subnet : String) (usedV4 : List String)
    (netAddr p lastAddr pfx : Nat) (lastStr : String)
    (hn : ip_network subnet = .ok (netAddr, p))
    (hl : (sortStrings usedV4).getLast? = some lastStr)
    (hi : ip_interface lastStr = .ok (lastAddr, pfx))
    (hov : lastAddr + 11 < 2 ^ 32)
    (hout : inNetwork (lastAddr + 1) netAddr p = false ∨
      inNetwork (lastAddr + 11) netAddr p = false) :
    ∃ bad, (bad = lastAddr + 1 ∨ bad = lastAddr + 11) ∧
      inNetwork bad netAddr p = false ∧
      layer2RangeForSubnet subnet usedV4 =
        .error (.exit ("network range " ++ ipv4Str bad ++ "/32 is not in "
          ++ ipv4Str netAddr ++ "/" ++ toString p)) := by
  have h1 : ¬ (2 ^ 32 ≤ lastAddr + 1) := by omega
  have h2 : ¬ (2 ^ 32 ≤ lastAddr + 11) := by omega
  by_cases hs : inNetwork (lastAddr + 1) netAddr p = true
  · have he : inNetwork (lastAddr + 11) netAddr p = false := by
      rcases hout with h' | h'
      · rw [hs] at h'; cases h'
      · exact h'
    refine ⟨lastAddr + 11, Or.inr rfl, he, ?_⟩
    rw [layer2RangeForSubnet]
    simp only [hn, hl, hi]
    rw [if_neg h1, if_neg h2, if_neg (by simp [hs]), if_pos (by simp [he])]
  · have hs' : inNetwork (lastAddr + 1) netAddr p = false := by
      simpa using hs
    refine ⟨lastAddr + 1, Or.inl rfl, hs', ?_⟩
    rw [layer2RangeForSubnet]
    simp only [hn, hl, hi]
    rw [if_neg h1, if_neg h2, if_pos (by simp [hs'])]

/-- Witness for the C3 amended theorem: used address `10.240.127.250/17`
near the top of `10.240.0.0/17` makes `end = 10.240.128.5` fall outside
the subnet. -/
theorem c3_witness :
    ∃ bad, (bad = 183533562 + 1 ∨ bad = 183533562 + 11) ∧
      inNetwork bad 183500800 17 = false ∧
      layer2RangeForSubnet "10.240.0.0/17" ["10.240.127.250/17"] =
        .error (.exit ("network range " ++ ipv4Str bad ++ "/32 is not in "
          ++ ipv4Str 183500800 ++ "/" ++ toString 17)) :=
  c3_range_error_exit "10.240.0.0/17" ["10.240.127.250/17"]
    183500800 17 183533562 17 "10.240.127.250/17"
    rfl rfl rfl (by omega) (Or.inr (by decide))

/-- C9: on an input whose entries are each `"all"` or a supported
architecture, `_check_architectures` returns a duplicate-free,
ascending-sorted sublist of the supported set, with `"all"` expanded to
the full supported set and the empty input yielding exactly `["amd64"]`;
an input containing any other name makes the process exit. -/
theorem c9_check_architectures (archs : List String) :
    ((∀ a ∈ archs, a = "all" ∨ a ∈ all_architectures) →
      ∃ l, check_architectures archs = .ok l ∧ l.Nodup ∧ StrSorted l ∧
        (∀ x ∈ l, x ∈ all_architectures) ∧
        ("all" ∈ archs → l = ["amd64", "arm", "arm64", "ppc64le", "s390x"]) ∧
        (archs = [] → l = ["amd64"])) ∧
    ((∃ a ∈ archs, a ≠ "all" ∧ a ∉ all_architectures) →
      check_architectures archs = .error (.sysExit 1)) := by
  constructor
  · intro hvalid
    obtain ⟨res, hres⟩ :=
      checkLoop_ok_of_valid (A := all_architectures) ([] : List String) hvalid
    have hsub : ∀ x ∈ res, x ∈ all_architectures :=
      checkLoop_subset hres (fun x hx => absurd hx (List.not_mem_nil x))
    have hnd : res.Nodup := checkLoop_nodup hres List.nodup_nil
    have hout' : ∀ x ∈ (if res.isEmpty then setAdd res "amd64" else res),
        x ∈ all_architectures := by
      by_cases hre : res.isEmpty
      · rw [if_pos hre]
        intro x hx
        rcases mem_setAdd.mp hx with hx | hx
        · exact hsub x hx
        · rw [hx]; decide
      · rw [if_neg hre]; exact hsub
    have hnd' : (if res.isEmpty then setAdd res "amd64" else res).Nodup := by
      by_cases hre : res.isEmpty
      · rw [if_pos hre]; exact nodup_setAdd hnd
      · rw [if_neg hre]; exact hnd
    refine ⟨sortStrings (if res.isEmpty then setAdd res "amd64" else res),
      ?_, nodup_sortStrings hnd', sorted_sortStrings _, ?_, ?_, ?_⟩
    · rw [check_architectures]
      simp only [hres]
    · intro x hx
      exact hout' x (mem_sortStrings.mp hx)
    · intro hall
      have hsup : ∀ x ∈ all_architectures, x ∈ res := checkLoop_all_mem hres hall
      have hne : res.isEmpty = false := by
        cases res with
        | nil => exact absurd (hsup "amd64" (by decide)) (List.not_mem_nil _)
        | cons a as => rfl
      have hsel : (if res.isEmpty then setAdd res "amd64" else res) = res := by
        simp [hne]
      rw [hsel]
      apply sorted_nodup_ext (sorted_sortStrings res)
        (by simp only [StrSorted, List.chain'_cons, List.chain'_singleton, and_true]; decide)
        (nodup_sortStrings hnd) (by decide)
      intro a
      rw [mem_sortStrings]
      exact ⟨fun ha => hsub a ha, fun ha => hsup a ha⟩
    · intro hempty
      subst hempty
      rw [checkLoop] at hres
      injection hres with h2
      subst h2
      rfl
  · rintro ⟨a, ha, hne, hnm⟩
    rw [check_architectures,
      checkLoop_error_of_invalid ([] : List String) ⟨a, ha, hne, hnm⟩]

/-- Witness for C9 at `["all", "arm"]`. -/
theorem c9_witness :
    ∃ l, check_architectures ["all", "arm"] = .ok l ∧ l.Nodup ∧ StrSorted l ∧
      (∀ x ∈ l, x ∈ all_architectures) ∧
      ("all" ∈ ["all", "arm"] → l = ["amd64", "arm", "arm64", "ppc64le", "s390x"]) ∧
      (["all", "arm"] = ([] : List String) → l = ["amd64"]) :=
  (c9_check_architectures ["all", "arm"]).1 (by decide)

/-- C10: on an input whose entries are each `"all"` or a known binary,
`_check_binaries` returns a duplicate-free, ascending-sorted sublist of
`{controller, speaker, mirror-server}`, with `"all"` expanding to all
three binaries but the empty input defaulting to exactly
`["controller", "speaker"]` (`mirror-server` excluded from the default);
an input containing any other name makes the process exit. -/
theorem c10_check_binaries (bins : List String) :
    ((∀ a ∈ bins, a = "all" ∨ a ∈ all_binaries) →
      ∃ l, check_binaries bins = .ok l ∧ l.Nodup ∧ StrSorted l ∧
        (∀ x ∈ l, x ∈ all_binaries) ∧
        ("all" ∈ bins → l = ["controller", "mirror-server", "speaker"]) ∧
        (bins = [] → l = ["controller", "speaker"])) ∧
    ((∃ a ∈ bins, a ≠ "all" ∧ a ∉ all_binaries) →
      check_binaries bins = .error (.sysExit 1)) := by
  constructor
  · intro hvalid
    obtain ⟨res, hres⟩ :=
      checkLoop_ok_of_valid (A := all_binaries) ([] : List String) hvalid
    have hsub : ∀ x ∈ res, x ∈ all_binaries :=
      checkLoop_subset hres (fun x hx => absurd hx (List.not_mem_nil x))
    have hnd : res.Nodup := checkLoop_nodup hres List.nodup_nil
    have hout' : ∀ x ∈ (if res.isEmpty then setAdd (setAdd res "controller") "speaker"
        else res), x ∈ all_binaries := by
      by_cases hre : res.isEmpty
      · rw [if_pos hre]
        intro x hx
        rcases mem_setAdd.mp hx with hx | hx
        · rcases mem_setAdd.mp hx with hx | hx
          · exact hsub x hx
          · rw [hx]; decide
        · rw [hx]; decide
      · rw [if_neg hre]; exact hsub
    have hnd' : (if res.isEmpty then setAdd (setAdd res "controller") "speaker"
        else res).Nodup := by
      by_cases hre : res.isEmpty
      · rw [if_pos hre]; exact nodup_setAdd (nodup_setAdd hnd)
      · rw [if_neg hre]; exact hnd
    refine ⟨sortStrings (if res.isEmpty then setAdd (setAdd res "controller") "speaker"
        else res),
      ?_, nodup_sortStrings hnd', sorted_sortStrings _, ?_, ?_, ?_⟩
    · rw [check_binaries]
      simp only [hres]
    · intro x hx
      exact hout' x (mem_sortStrings.mp hx)
    · intro hall
      have hsup : ∀ x ∈ all_binaries, x ∈ res := checkLoop_all_mem hres hall
      have hne : res.isEmpty = false := by
        cases res with
        | nil => exact absurd (hsup "controller" (by decide)) (List.not_mem_nil _)
        | cons a as => rfl
      have hsel : (if res.isEmpty then setAdd (setAdd res "controller") "speaker"
          else res) = res := by
        simp [hne]
      rw [hsel]
      apply sorted_nodup_ext (sorted_sortStrings res)
        (by simp only [StrSorted, List.chain'_cons, List.chain'_singleton, and_true]; decide)
        (nodup_sortStrings hnd) (by decide)
      intro a
      rw [mem_sortStrings]
      constructor
      · intro ha
        have hm := hsub a ha
        simp only [all_binaries, List.mem_cons, List.not_mem_nil, or_false] at hm
        simp only [List.mem_cons, List.not_mem_nil, or_false]
        tauto
      · intro ha
        apply hsup
        simp only [List.mem_cons, List.not_mem_nil, or_false] at ha
        simp only [all_binaries, List.mem_cons, List.not_mem_nil, or_false]
        tauto
    · intro hempty
      subst hempty
      rw [checkLoop] at hres
      injection hres with h2
      subst h2
      rfl
  · rintro ⟨a, ha, hne, hnm⟩
    rw [check_binaries,
      checkLoop_error_of_invalid ([] : List String) ⟨a, ha, hne, hnm⟩]

/-- Witness for C10 at `["all"]`. -/
theorem c10_witness :
    ∃ l, check_binaries ["all"] = .ok l ∧ l.Nodup ∧ StrSorted l ∧
      (∀ x ∈ l, x ∈ all_binaries) ∧
      ("all" ∈ ["all"] → l = ["controller", "mirror-server", "speaker"]) ∧
      (["all"] = ([] : List String) → l = ["controller", "speaker"]) :=
  (c10_check_binaries ["all"]).1 (by decide)

theorem string_eq_of_data {s t : String} (h : s.data = t.data) : s = t := by
  cases s; cases t; cases h; rfl

theorem data_mk (l : List Char) : (String.mk l).data = l := rfl

/-- C5: for a template of the canonical shape — literal segments `a`,
`b`, `c`, `d` interleaved with the three node tokens in positional order
— and any 3-element node list, the BGP renderer replaces each token
`NODEi_IP` by the `i`-th node address and leaves every literal segment
unchanged.  The hypotheses state exactly the spec's proviso that "tokens
must not collide with literal template content": no token can begin
inside the text preceding its occurrence (warning line, literal segments
and already-substituted values included) and none occurs in the text
after it. -/
theorem c5_bgp_token_substitution (a b c d i0 i1 i2 : List Char)
    (h0a : noTokenStart (nodeToken 0).data (autogenBang.data ++ a) = true)
    (h0b : noOcc (nodeToken 0).data
      (b ++ ((nodeToken 1).data ++ (c ++ ((nodeToken 2).data ++ d)))) = true)
    (h1a : noTokenStart (nodeToken 1).data
      (autogenBang.data ++ a ++ i0 ++ b) = true)
    (h1b : noOcc (nodeToken 1).data (c ++ ((nodeToken 2).data ++ d)) = true)
    (h2a : noTokenStart (nodeToken 2).data
      (autogenBang.data ++ a ++ i0 ++ b ++ i1 ++ c) = true)
    (h2b : noOcc (nodeToken 2).data d = true) :
    bgpDevEnvBgpd
      ⟨a ++ ((nodeToken 0).data ++ (b ++ ((nodeToken 1).data
        ++ (c ++ ((nodeToken 2).data ++ d)))))⟩
      [⟨i0⟩, ⟨i1⟩, ⟨i2⟩] =
    .ok ⟨autogenBang.data ++ (a ++ (i0 ++ (b ++ (i1 ++ (c ++ (i2 ++ d))))))⟩ := by
  rw [bgpDevEnvBgpd, if_neg (by intro hh; exact hh rfl)]
  congr 1
  show pyReplace (pyReplace (pyReplace
      (autogenBang ++ ⟨a ++ ((nodeToken 0).data ++ (b ++ ((nodeToken 1).data
        ++ (c ++ ((nodeToken 2).data ++ d)))))⟩)
      (nodeToken 0) ⟨i0⟩) (nodeToken 1) ⟨i1⟩) (nodeToken 2) ⟨i2⟩ = _
  apply string_eq_of_data
  simp only [pyReplace_data, strData_append, data_mk]
  have e0 : autogenBang.data ++ (a ++ ((nodeToken 0).data
        ++ (b ++ ((nodeToken 1).data ++ (c ++ ((nodeToken 2).data ++ d)))))) =
      (autogenBang.data ++ a) ++ ((nodeToken 0).data
        ++ (b ++ ((nodeToken 1).data ++ (c ++ ((nodeToken 2).data ++ d))))) := by
    simp [List.append_assoc]
  rw [e0, replaceAll_once i0 h0a h0b]
  have e1 : (autogenBang.data ++ a) ++ (i0
        ++ (b ++ ((nodeToken 1).data ++ (c ++ ((nodeToken 2).data ++ d))))) =
      (autogenBang.data ++ a ++ i0 ++ b) ++ ((nodeToken 1).data
        ++ (c ++ ((nodeToken 2).data ++ d))) := by
    simp [List.append_assoc]
  rw [e1, replaceAll_once i1 h1a h1b]
  have e2 : (autogenBang.data ++ a ++ i0 ++ b) ++ (i1
        ++ (c ++ ((nodeToken 2).data ++ d))) =
      (autogenBang.data ++ a ++ i0 ++ b ++ i1 ++ c)
        ++ ((nodeToken 2).data ++ d) := by
    simp [List.append_assoc]
  rw [e2, replaceAll_once i2 h2a h2b]
  simp [List.append_assoc]

/-- Witness for C5: the spec's node list and a bgpd.conf-like template. -/
theorem c5_witness :
    bgpDevEnvBgpd
      ⟨"router bgp 64512\n neighbor ".data ++ ((nodeToken 0).data
        ++ (" remote-as 64512\n neighbor ".data ++ ((nodeToken 1).data
        ++ (" peer-group\n neighbor ".data ++ ((nodeToken 2).data
        ++ " activate\n".data)))))⟩
      [⟨"10.0.0.2".data⟩, ⟨"10.0.0.3".data⟩, ⟨"10.0.0.4".data⟩] =
    .ok ⟨autogenBang.data ++ ("router bgp 64512\n neighbor ".data
      ++ ("10.0.0.2".data ++ (" remote-as 64512\n neighbor ".data
      ++ ("10.0.0.3".data ++ (" peer-group\n neighbor ".data
      ++ ("10.0.0.4".data ++ " activate\n".data)))))) ⟩ :=
  c5_bgp_token_substitution
    "router bgp 64512\n neighbor ".data " remote-as 64512\n neighbor ".data
    " peer-group\n neighbor ".data " activate\n".data
    "10.0.0.2".data "10.0.0.3".data "10.0.0.4".data
    (by decide) (by decide) (by decide) (by decide) (by decide) (by decide)
